import Mathlib

/-!
Verification of the connection-negotiation and chunked-transfer protocol of
the `tahta_web` repository (phone-side client).

The embedding translates `src/js/webrtc.js` (class `WebRTCClient`) and the
relay dedup logic of `FirebaseSignaling.onRemoteIceCandidate`.  Byte buffers
(`ArrayBuffer`) are modelled as `List Nat`, JavaScript numbers as `Nat`
(respectively `ℚ` for the progress fractions, which the code computes by
division), and the two wire-message kinds (structured JSON text and raw
binary frames) as a single inductive `Msg`, discriminated exactly the way
`handleMessage` discriminates them after `JSON.parse`.
-/

/-- CHUNK_SIZE from `webrtc.js` line 6: `64 * 1024` bytes. -/
def CHUNK_SIZE : Nat := 64 * 1024

/-- Number of chunks `sendFile` computes: `Math.ceil(totalSize / CHUNK_SIZE)`,
which on natural numbers is `(n + CHUNK_SIZE - 1) / CHUNK_SIZE`. -/
def numChunks (totalSize : Nat) : Nat :=
  (totalSize + CHUNK_SIZE - 1) / CHUNK_SIZE

/-- Chunk `i` of the payload, as produced by
`data.slice(i * CHUNK_SIZE, min((i+1) * CHUNK_SIZE, totalSize))` in the
send loop of `sendFile`. -/
def chunkAt (data : List Nat) (i : Nat) : List Nat :=
  (data.drop (i * CHUNK_SIZE)).take CHUNK_SIZE

/-- The list of binary chunks the send loop of `sendFile` produces, in loop
order `i = 0, 1, ..., totalChunks - 1`. -/
def chunkList (data : List Nat) : List (List Nat) :=
  (List.range (numChunks data.length)).map (chunkAt data)

/-- Wire messages on the data channel.  `header`, `complete` and
`pdfRequest` travel as JSON strings; `binary` is a raw binary frame. -/
inductive Msg where
  | header (type : String) (filename : String) (totalSize : Nat) (totalChunks : Nat)
  | binary (data : List Nat)
  | complete
  | pdfRequest
  deriving DecidableEq, Repr

/-- Errors `sendFile` can throw.  The code throws
`new Error('DataChannel not open')`; the spec names it
`TransportNotOpenError`. -/
inductive SendError where
  | TransportNotOpenError
  deriving DecidableEq, Repr

/-- The data channel as `sendFile` observes it: only `readyState` matters
for the open check.  `this.dataChannel` itself may be `null`, hence the
`Option` at use sites. -/
structure DataChannel where
  readyState : String
  deriving DecidableEq, Repr

/-- The open check of `sendFile` line 244:
`!this.dataChannel || this.dataChannel.readyState !== 'open'` is the
negation of this predicate. -/
def channelIsOpen : Option DataChannel → Bool
  | none => false
  | some dc => dc.readyState = "open"

/-- Observable output of one `sendFile` call: the messages pushed into
`dataChannel.send` in order, and the values passed to `onProgress` in
order. -/
structure SendResult where
  messages : List Msg
  progress : List ℚ
  deriving DecidableEq, Repr

/-- The progress values reported by the send loop: after sending chunk `i`
it invokes `onProgress((i + 1) / totalChunks)`. -/
def sendProgress (data : List Nat) : List ℚ :=
  (List.range (numChunks data.length)).map
    (fun i : Nat => ((i : ℚ) + 1) / (numChunks data.length : ℚ))

/-- WebRTCClient.sendFile (`webrtc.js` lines 243-288): checks the channel is
open, sends one header carrying `totalSize` and `totalChunks`, then the
chunks in ascending index order, then the completion sentinel; reports
progress after each chunk. -/
def sendFile (dataChannel : Option DataChannel) (type filename : String)
    (data : List Nat) : Except SendError SendResult :=
  if ¬ channelIsOpen dataChannel then
    .error .TransportNotOpenError
  else
    .ok { messages :=
            Msg.header type filename data.length (numChunks data.length)
              :: (chunkList data).map Msg.binary ++ [Msg.complete],
          progress := sendProgress data }

/-! Basic facts about the chunking. -/

theorem CHUNK_SIZE_pos : 0 < CHUNK_SIZE := by decide

theorem chunkAt_length_le (data : List Nat) (i : Nat) :
    (chunkAt data i).length ≤ CHUNK_SIZE := by
  simp [chunkAt]

theorem numChunks_zero : numChunks 0 = 0 := by
  unfold numChunks CHUNK_SIZE
  omega

theorem chunkList_nil : chunkList [] = [] := by
  simp [chunkList, numChunks_zero]

theorem numChunks_pos {n : Nat} (h : 0 < n) : 0 < numChunks n := by
  unfold numChunks CHUNK_SIZE
  omega

theorem map_range_succ {α : Type} (f : Nat → α) (k : Nat) :
    (List.range (k + 1)).map f = f 0 :: (List.range k).map (fun i => f (i + 1)) := by
  rw [List.range_succ_eq_map]
  simp [Function.comp]

theorem numChunks_succ (data : List Nat) (hd : data ≠ []) :
    numChunks data.length = numChunks (data.length - CHUNK_SIZE) + 1 := by
  have hlen : 0 < data.length := List.length_pos.mpr hd
  unfold numChunks CHUNK_SIZE at *
  omega

theorem chunkAt_zero (data : List Nat) : chunkAt data 0 = data.take CHUNK_SIZE := by
  simp [chunkAt]

theorem chunkAt_succ (data : List Nat) (i : Nat) :
    chunkAt data (i + 1) = chunkAt (data.drop CHUNK_SIZE) i := by
  simp only [chunkAt, List.drop_drop]
  rw [Nat.succ_mul, Nat.add_comm]

/-- Peeling off the first chunk: for a nonempty payload, the chunk list is
the first `CHUNK_SIZE` bytes followed by the chunk list of the rest. -/
theorem chunkList_cons (data : List Nat) (hd : data ≠ []) :
    chunkList data =
      data.take CHUNK_SIZE :: chunkList (data.drop CHUNK_SIZE) := by
  have hdroplen : (data.drop CHUNK_SIZE).length = data.length - CHUNK_SIZE := by
    simp
  unfold chunkList
  rw [hdroplen, numChunks_succ data hd, map_range_succ, chunkAt_zero]
  have htail :
      (List.range (numChunks (data.length - CHUNK_SIZE))).map
          (fun i => chunkAt data (i + 1)) =
        (List.range (numChunks (data.length - CHUNK_SIZE))).map
          (chunkAt (data.drop CHUNK_SIZE)) := by
    apply List.map_congr_left
    intro i _
    exact chunkAt_succ data i
  rw [htail]

/-- Concatenating the chunks reproduces the payload. -/
theorem chunkList_join (data : List Nat) : (chunkList data).flatten = data := by
  by_cases hd : data = []
  · subst hd; simp [chunkList_nil]
  · rw [chunkList_cons data hd, List.flatten_cons,
      chunkList_join (data.drop CHUNK_SIZE), List.take_append_drop]
termination_by data.length
decreasing_by
  simp only [List.length_drop]
  have : 0 < data.length := List.length_pos.mpr hd
  have : 0 < CHUNK_SIZE := CHUNK_SIZE_pos
  omega

theorem chunkList_length (data : List Nat) :
    (chunkList data).length = numChunks data.length := by
  simp [chunkList]

theorem chunkList_sizes_sum (data : List Nat) :
    ((chunkList data).map List.length).sum = data.length := by
  rw [← List.length_flatten, chunkList_join]

/-! Receiver side: `pendingFile`, `handleMessage`, `finalizeFile`. -/

/-- Receiver-side accumulator `this.pendingFile` (allocated in
`handleMessage` lines 321-328). -/
structure PendingFile where
  type : String
  filename : String
  totalSize : Nat
  totalChunks : Nat
  chunks : List (List Nat)
  receivedSize : Nat
  deriving DecidableEq, Repr

/-- Observable receiver state: the pending transfer plus the recorded
callback invocations.  `fileReceivedCalls` records each
`onFileReceived(type, filename, blob)` call with the blob's bytes;
`progressCalls` records each receiver-side `onProgress` value. -/
structure RecvState where
  pendingFile : Option PendingFile
  fileReceivedCalls : List (String × String × List Nat)
  progressCalls : List ℚ
  deriving DecidableEq, Repr

def initialRecvState : RecvState := ⟨none, [], []⟩

/-- WebRTCClient.finalizeFile (`webrtc.js` lines 361-387): returns early if
no pending file; otherwise builds the blob by concatenating the chunks in
receipt order, invokes `onFileReceived(type, filename, blob)`, and clears
`pendingFile`.  It performs no size or count validation. -/
def finalizeFile (st : RecvState) : RecvState :=
  match st.pendingFile with
  | none => st
  | some pf =>
      { st with
          pendingFile := none,
          fileReceivedCalls :=
            st.fileReceivedCalls ++ [(pf.type, pf.filename, pf.chunks.flatten)] }

/-- WebRTCClient.handleMessage (`webrtc.js` lines 313-356).  A structured
message with a `header` field allocates a fresh `pendingFile`
unconditionally; `complete` finalizes only if a pending file exists; a
binary frame is appended (chunk pushed, `receivedSize` updated, progress
reported) only if a pending file exists, and is otherwise ignored.  Binary
frames are modelled as ready byte buffers (the synchronous `ArrayBuffer`
branch of the code). -/
def handleMessage (st : RecvState) (msg : Msg) : RecvState :=
  match msg with
  | .header t f sz tc =>
      { st with pendingFile := some ⟨t, f, sz, tc, [], 0⟩ }
  | .complete =>
      match st.pendingFile with
      | some _ => finalizeFile st
      | none => st
  | .binary d =>
      match st.pendingFile with
      | some pf =>
          { st with
              pendingFile := some
                { pf with
                    chunks := pf.chunks ++ [d],
                    receivedSize := pf.receivedSize + d.length },
              progressCalls := st.progressCalls ++
                [((pf.receivedSize + d.length : Nat) : ℚ) / (pf.totalSize : ℚ)] }
      | none => st
  | .pdfRequest => st

/-- Feeding a list of inbound messages to `handleMessage` in order. -/
def runReceiver (st : RecvState) (msgs : List Msg) : RecvState :=
  msgs.foldl handleMessage st

theorem runReceiver_append (st : RecvState) (xs ys : List Msg) :
    runReceiver st (xs ++ ys) = runReceiver (runReceiver st xs) ys := by
  simp [runReceiver]

/-- Effect of a run of binary frames on a state holding a pending file:
the chunks are appended in order, `receivedSize` grows by their total
length, and no file-received callback fires. -/
theorem runReceiver_binaries (pf : PendingFile)
    (calls : List (String × String × List Nat)) (prog : List ℚ)
    (cs : List (List Nat)) :
    ∃ prog2 : List ℚ,
      runReceiver ⟨some pf, calls, prog⟩ (cs.map Msg.binary) =
        ⟨some { pf with
                  chunks := pf.chunks ++ cs,
                  receivedSize := pf.receivedSize + (cs.map List.length).sum },
          calls, prog2⟩ := by
  induction cs generalizing pf prog
  case nil =>
    exact ⟨prog, by simp [runReceiver]⟩
  case cons c cs ih =>
    simp only [List.map_cons, runReceiver, List.foldl_cons, handleMessage]
    obtain ⟨prog2, h2⟩ := ih
      { pf with chunks := pf.chunks ++ [c], receivedSize := pf.receivedSize + c.length }
      (prog ++ [((pf.receivedSize + c.length : Nat) : ℚ) / (pf.totalSize : ℚ)])
    refine ⟨prog2, ?_⟩
    simp only [runReceiver] at h2
    rw [h2]
    simp only [List.map_cons, List.sum_cons, List.append_assoc,
      List.singleton_append, RecvState.mk.injEq, Option.some.injEq,
      PendingFile.mk.injEq]
    and_intros <;> first | trivial | omega

theorem sendFile_ok_elim (dc : Option DataChannel) (t f : String)
    (data : List Nat) (res : SendResult)
    (h : sendFile dc t f data = Except.ok res) :
    res.messages = Msg.header t f data.length (numChunks data.length)
        :: ((chunkList data).map Msg.binary ++ [Msg.complete]) ∧
    res.progress = sendProgress data := by
  unfold sendFile at h
  split at h
  · exact absurd h (by simp)
  · rw [Except.ok.injEq] at h
    subst h
    exact ⟨rfl, rfl⟩

theorem numChunks_mul_lt (n : Nat) :
    numChunks n * CHUNK_SIZE < n + CHUNK_SIZE := by
  unfold numChunks CHUNK_SIZE
  omega

theorem le_numChunks_mul (n : Nat) : n ≤ numChunks n * CHUNK_SIZE := by
  unfold numChunks CHUNK_SIZE
  omega

/-- The chunk count computed by `sendFile` is the ceiling of
`totalSize / CHUNK_SIZE` as a rational number. -/
theorem numChunks_eq_ceil (n : Nat) :
    ⌈(n : ℚ) / (CHUNK_SIZE : ℚ)⌉ = (numChunks n : ℤ) := by
  have hC : (0 : ℚ) < (CHUNK_SIZE : ℚ) := by
    exact_mod_cast CHUNK_SIZE_pos
  rw [Int.ceil_eq_iff]
  constructor
  · rw [lt_div_iff₀ hC]
    have h1 : ((numChunks n : ℚ)) * (CHUNK_SIZE : ℚ) < (n : ℚ) + (CHUNK_SIZE : ℚ) := by
      exact_mod_cast numChunks_mul_lt n
    push_cast
    linarith
  · rw [div_le_iff₀ hC]
    have h2 : (n : ℚ) ≤ ((numChunks n : ℚ)) * (CHUNK_SIZE : ℚ) := by
      exact_mod_cast le_numChunks_mul n
    push_cast
    linarith

/-- C1: feeding the messages produced by a successful
`sendFile(kind, filename, payload)` call, in order, into the receiver's
`handleMessage` reproduces a byte-identical payload, the same filename and
the same kind at the `onFileReceived` callback, and leaves no pending
transfer behind. -/
theorem sendFile_roundTrip (dc : Option DataChannel) (t f : String)
    (data : List Nat) (res : SendResult)
    (h : sendFile dc t f data = Except.ok res) :
    (runReceiver initialRecvState res.messages).fileReceivedCalls
        = [(t, f, data)] ∧
    (runReceiver initialRecvState res.messages).pendingFile = none := by
  obtain ⟨hm, -⟩ := sendFile_ok_elim dc t f data res h
  rw [hm]
  have h0 : runReceiver initialRecvState
      (Msg.header t f data.length (numChunks data.length)
        :: ((chunkList data).map Msg.binary ++ [Msg.complete])) =
      runReceiver ⟨some ⟨t, f, data.length, numChunks data.length, [], 0⟩, [], []⟩
        ((chunkList data).map Msg.binary ++ [Msg.complete]) := rfl
  rw [h0, runReceiver_append]
  obtain ⟨prog2, hbin⟩ := runReceiver_binaries
    ⟨t, f, data.length, numChunks data.length, [], 0⟩ [] [] (chunkList data)
  rw [hbin]
  simp [runReceiver, handleMessage, finalizeFile, chunkList_join]

/-- Concrete evaluation of `sendFile` on a three-byte image payload. -/
theorem sendFile_photo_eq :
    sendFile (some ⟨"open"⟩) "image" "photo.jpg" [1, 2, 3] =
      Except.ok ⟨[Msg.header "image" "photo.jpg" 3 1, Msg.binary [1, 2, 3],
        Msg.complete], [1]⟩ := by
  have hn : numChunks 3 = 1 := by unfold numChunks CHUNK_SIZE; omega
  have ht : List.take CHUNK_SIZE [1, 2, 3] = [1, 2, 3] :=
    List.take_of_length_le (by norm_num [CHUNK_SIZE])
  have hr : List.range 1 = [0] := rfl
  simp [sendFile, channelIsOpen, chunkList, chunkAt, sendProgress, hn, hr, ht]

theorem sendFile_roundTrip_witness :
    sendFile (some ⟨"open"⟩) "image" "photo.jpg" [1, 2, 3] =
      Except.ok ⟨[Msg.header "image" "photo.jpg" 3 1, Msg.binary [1, 2, 3],
        Msg.complete], [1]⟩ ∧
    (runReceiver initialRecvState
        (SendResult.mk [Msg.header "image" "photo.jpg" 3 1, Msg.binary [1, 2, 3],
          Msg.complete] [1]).messages).fileReceivedCalls
      = [("image", "photo.jpg", [1, 2, 3])] := by
  refine ⟨sendFile_photo_eq, ?_⟩
  exact (sendFile_roundTrip (some ⟨"open"⟩) "image" "photo.jpg" [1, 2, 3]
    ⟨[Msg.header "image" "photo.jpg" 3 1, Msg.binary [1, 2, 3], Msg.complete], [1]⟩
    sendFile_photo_eq).1

/-- C2: a successful `sendFile` on a payload of length N emits exactly one
header message whose `totalChunks` field is `ceil(N / 65536)`, then exactly
`totalChunks` binary messages in ascending index order (the i-th binary
message carries chunk i), each of size at most `CHUNK_SIZE`, whose sizes sum
to N and whose concatenation is the payload, then exactly one completion
sentinel. -/
theorem sendFile_framing (dc : Option DataChannel) (t f : String)
    (data : List Nat) (res : SendResult)
    (h : sendFile dc t f data = Except.ok res) :
    res.messages = Msg.header t f data.length (numChunks data.length)
        :: ((chunkList data).map Msg.binary ++ [Msg.complete]) ∧
    ⌈(data.length : ℚ) / (CHUNK_SIZE : ℚ)⌉ = (numChunks data.length : ℤ) ∧
    (chunkList data).length = numChunks data.length ∧
    (∀ i, i < numChunks data.length →
      (chunkList data).get? i = some (chunkAt data i)) ∧
    (∀ c ∈ chunkList data, c.length ≤ CHUNK_SIZE) ∧
    ((chunkList data).map List.length).sum = data.length ∧
    (chunkList data).flatten = data := by
  obtain ⟨hm, -⟩ := sendFile_ok_elim dc t f data res h
  refine ⟨hm, numChunks_eq_ceil data.length, chunkList_length data, ?_, ?_,
    chunkList_sizes_sum data, chunkList_join data⟩
  · intro i hi
    simp [chunkList, List.get?_eq_getElem?, List.getElem?_map,
      List.getElem?_range, hi]
  · intro c hc
    simp only [chunkList, List.mem_map] at hc
    obtain ⟨i, -, rfl⟩ := hc
    exact chunkAt_length_le data i

/-- Concrete evaluation of `sendFile` on a two-byte audio payload. -/
theorem sendFile_audio_eq :
    sendFile (some ⟨"open"⟩) "audio" "rec.webm" [7, 8] =
      Except.ok ⟨[Msg.header "audio" "rec.webm" 2 1, Msg.binary [7, 8],
        Msg.complete], [1]⟩ := by
  have hn : numChunks 2 = 1 := by unfold numChunks CHUNK_SIZE; omega
  have ht : List.take CHUNK_SIZE [7, 8] = [7, 8] :=
    List.take_of_length_le (by norm_num [CHUNK_SIZE])
  have hr : List.range 1 = [0] := rfl
  simp [sendFile, channelIsOpen, chunkList, chunkAt, sendProgress, hn, hr, ht]

theorem sendFile_framing_witness :
    sendFile (some ⟨"open"⟩) "audio" "rec.webm" [7, 8] =
      Except.ok ⟨[Msg.header "audio" "rec.webm" 2 1, Msg.binary [7, 8],
        Msg.complete], [1]⟩ ∧
    (chunkList [7, 8]).flatten = [7, 8] ∧
    ⌈((2 : Nat) : ℚ) / (CHUNK_SIZE : ℚ)⌉ = (numChunks 2 : ℤ) := by
  refine ⟨sendFile_audio_eq, ?_, ?_⟩
  · exact (sendFile_framing (some ⟨"open"⟩) "audio" "rec.webm" [7, 8]
      ⟨[Msg.header "audio" "rec.webm" 2 1, Msg.binary [7, 8], Msg.complete], [1]⟩
      sendFile_audio_eq).2.2.2.2.2.2
  · exact (sendFile_framing (some ⟨"open"⟩) "audio" "rec.webm" [7, 8]
      ⟨[Msg.header "audio" "rec.webm" 2 1, Msg.binary [7, 8], Msg.complete], [1]⟩
      sendFile_audio_eq).2.1

/-- C6: a `sendFile` call made while the data channel is absent or not in
the `open` ready state fails immediately with `TransportNotOpenError`; the
error result carries no messages and no progress reports, so nothing is
sent or queued and no state is touched. -/
theorem sendFile_failsFast (dc : Option DataChannel) (t f : String)
    (data : List Nat) (h : channelIsOpen dc = false) :
    sendFile dc t f data = Except.error SendError.TransportNotOpenError := by
  unfold sendFile
  rw [h]
  simp

theorem sendFile_failsFast_witness :
    channelIsOpen (some ⟨"connecting"⟩) = false ∧
    sendFile (some ⟨"connecting"⟩) "image" "a.jpg" [1, 2] =
      Except.error SendError.TransportNotOpenError :=
  ⟨rfl, sendFile_failsFast (some ⟨"connecting"⟩) "image" "a.jpg" [1, 2] rfl⟩

/-- C10: a binary frame that arrives while no pending transfer exists is
silently ignored: `handleMessage` returns the receiver state unchanged
(same pending transfer, same accumulated chunks and receivedSize, no new
file-received or progress callback recorded), and this branch has no error
path. -/
theorem binary_without_pending_ignored (st : RecvState) (d : List Nat)
    (h : st.pendingFile = none) :
    handleMessage st (Msg.binary d) = st := by
  unfold handleMessage
  rw [h]

theorem binary_without_pending_ignored_witness :
    initialRecvState.pendingFile = none ∧
    handleMessage initialRecvState (Msg.binary [9, 9]) = initialRecvState :=
  ⟨rfl, binary_without_pending_ignored initialRecvState [9, 9] rfl⟩

/-! Sender progress reporting (claim about `onProgress` in the send loop). -/

/-- C5 counterexample: for the empty payload `sendFile` succeeds with
`totalChunks = 0`, the send loop runs zero times, and the progress sequence
is empty — so it has no final value and in particular never reaches 1.0,
refuting the claim for that payload. -/
theorem sendProgress_empty_no_final :
    sendFile (some ⟨"open"⟩) "image" "empty.jpg" [] =
      Except.ok ⟨[Msg.header "image" "empty.jpg" 0 0, Msg.complete],
        sendProgress []⟩ ∧
    sendProgress [] = [] ∧
    (sendProgress []).getLast? ≠ some 1 := by
  have hp : sendProgress [] = [] := by
    simp [sendProgress, numChunks_zero]
  refine ⟨?_, hp, ?_⟩
  · simp [sendFile, channelIsOpen, chunkList, sendProgress, numChunks_zero]
  · rw [hp]
    simp

/-- C5 (amended): for every nonempty payload, a successful `sendFile`
reports exactly the values `(i+1)/totalChunks` for `i = 0..totalChunks-1`,
one per binary send; the sequence is strictly increasing, every value is
positive, and its final value is exactly 1.  (For the empty payload the
sequence is empty, see the counterexample.) -/
theorem sendFile_progress_spec (dc : Option DataChannel) (t f : String)
    (data : List Nat) (res : SendResult)
    (h : sendFile dc t f data = Except.ok res) (hne : data ≠ []) :
    res.progress = (List.range (numChunks data.length)).map
        (fun i : Nat => ((i : ℚ) + 1) / (numChunks data.length : ℚ)) ∧
    res.progress.Pairwise (· < ·) ∧
    (∀ x ∈ res.progress, 0 < x) ∧
    res.progress.getLast? = some 1 := by
  obtain ⟨-, hp⟩ := sendFile_ok_elim dc t f data res h
  have hkpos : 0 < numChunks data.length :=
    numChunks_pos (List.length_pos.mpr hne)
  have hkq : (0 : ℚ) < (numChunks data.length : ℚ) := by exact_mod_cast hkpos
  rw [hp]
  refine ⟨rfl, ?_, ?_, ?_⟩
  · unfold sendProgress
    refine List.Pairwise.map _ ?_ (List.pairwise_lt_range _)
    intro a b hab
    apply div_lt_div_of_pos_right ?_ hkq
    have : (a : ℚ) < (b : ℚ) := by exact_mod_cast hab
    linarith
  · intro x hx
    unfold sendProgress at hx
    obtain ⟨i, -, rfl⟩ := List.mem_map.mp hx
    apply div_pos ?_ hkq
    positivity
  · obtain ⟨m, hm⟩ : ∃ m, numChunks data.length = m + 1 :=
      ⟨numChunks data.length - 1, by omega⟩
    unfold sendProgress
    rw [hm, List.range_succ, List.map_append, List.map_singleton,
      List.getLast?_concat]
    have : ((m : ℚ) + 1) / ((m + 1 : Nat) : ℚ) = 1 := by
      rw [div_eq_one_iff_eq]
      · push_cast
        ring
      · push_cast
        positivity
    rw [this]

theorem sendFile_progress_spec_witness :
    [1, 2, 3] ≠ ([] : List Nat) ∧
    (SendResult.mk [Msg.header "image" "photo.jpg" 3 1, Msg.binary [1, 2, 3],
      Msg.complete] [1]).progress.getLast? = some 1 := by
  refine ⟨by simp, ?_⟩
  exact (sendFile_progress_spec (some ⟨"open"⟩) "image" "photo.jpg" [1, 2, 3]
    ⟨[Msg.header "image" "photo.jpg" 3 1, Msg.binary [1, 2, 3], Msg.complete], [1]⟩
    sendFile_photo_eq (by simp)).2.2.2

/-! Receiver defects the spec flags (§9): missing completion-time
validation, and silent overwrite of an in-progress transfer. -/

/-- C3 (code behavior at the failing input): `finalizeFile` performs no
size or count validation.  A header announcing `totalSize = 2` and
`totalChunks = 2`, followed by a single 1-byte chunk and the completion
sentinel, makes the receiver deliver the truncated 1-byte payload through
`onFileReceived` and clear the pending state — no `DataIntegrityError` is
raised and the partial payload is not discarded. -/
theorem finalizeFile_no_validation :
    (runReceiver initialRecvState
      [Msg.header "image" "trunc.bin" 2 2, Msg.binary [7],
        Msg.complete]).fileReceivedCalls = [("image", "trunc.bin", [7])] ∧
    (runReceiver initialRecvState
      [Msg.header "image" "trunc.bin" 2 2, Msg.binary [7],
        Msg.complete]).pendingFile = none := by
  constructor <;> rfl

/-- C4 (code behavior at the failing input): a header arriving while a
`pendingFile` is already in progress silently replaces it.  After
`header("image", "first.bin", 3, 1)` followed by
`header("audio", "second.bin", 5, 1)` the receiver state holds a fresh
pending transfer for the second file, the first transfer is gone, and no
callback of any kind was invoked — nothing signals the conflict. -/
theorem header_overwrites_pending :
    runReceiver initialRecvState
      [Msg.header "image" "first.bin" 3 1,
        Msg.header "audio" "second.bin" 5 1] =
      ⟨some ⟨"audio", "second.bin", 5, 1, [], 0⟩, [], []⟩ := rfl

/-! Relay candidate subscription with dedup
(`FirebaseSignaling.onRemoteIceCandidate`, part_000 lines 883-900). -/

/-- An ICE candidate record as exchanged through the relay. -/
structure IceCandidate where
  candidate : String
  sdpMid : String
  sdpMLineIndex : Nat
  deriving DecidableEq, Repr

/-- State of one candidate subscription: the `processedKeys` set and the
record of callback invocations (`applied` keeps the entry key that
triggered each `callback(candidate)` call, for bookkeeping). -/
structure CandidateSubState where
  processedKeys : List String
  applied : List (String × IceCandidate)
  deriving DecidableEq, Repr

/-- Handling of one `[key, candidate]` entry of a snapshot (lines 890-895):
if the key was processed before, nothing happens; otherwise the key is
added to `processedKeys` and the callback fires with the candidate. -/
def processEntry (st : CandidateSubState) (e : String × IceCandidate) :
    CandidateSubState :=
  if e.1 ∈ st.processedKeys then st
  else ⟨st.processedKeys ++ [e.1], st.applied ++ [e]⟩

/-- Handling of one `onValue` snapshot, which delivers the full current
entry list; `Object.entries(data).forEach` walks it in order. -/
def processSnapshot (st : CandidateSubState)
    (snap : List (String × IceCandidate)) : CandidateSubState :=
  snap.foldl processEntry st

/-- A whole sequence of snapshot deliveries against a fresh subscription
(`processedKeys` starts as an empty set). -/
def runCandidateFeed (snaps : List (List (String × IceCandidate))) :
    CandidateSubState :=
  snaps.foldl processSnapshot ⟨[], []⟩

/-- The dedup invariant: a key has fired the callback exactly once if it is
in `processedKeys` and never otherwise. -/
def DedupInv (st : CandidateSubState) : Prop :=
  ∀ k : String, (st.applied.map Prod.fst).count k
    = if k ∈ st.processedKeys then 1 else 0

theorem processEntry_keys (st : CandidateSubState) (e : String × IceCandidate)
    (k : String) :
    (k ∈ (processEntry st e).processedKeys)
      ↔ (k ∈ st.processedKeys ∨ k = e.1) := by
  unfold processEntry
  split
  case isTrue hmem =>
    constructor
    · exact Or.inl
    · rintro (hk | rfl)
      · exact hk
      · exact hmem
  case isFalse hmem =>
    simp [List.mem_append]

theorem processEntry_inv (st : CandidateSubState) (e : String × IceCandidate)
    (h : DedupInv st) : DedupInv (processEntry st e) := by
  intro k
  unfold processEntry
  split
  case isTrue hmem => exact h k
  case isFalse hmem =>
    have h0 := h k
    simp only [List.map_append, List.map_cons, List.map_nil,
      List.count_append, List.mem_append, List.mem_singleton]
    by_cases hk : k = e.1
    · subst hk
      rw [if_neg hmem] at h0
      rw [h0, if_pos (Or.inr rfl)]
      simp
    · have hcount : ([e.1].count k) = 0 :=
        List.count_eq_zero.mpr (by simp [hk])
      rw [hcount, Nat.add_zero, h0]
      by_cases hk2 : k ∈ st.processedKeys
      · rw [if_pos hk2, if_pos (Or.inl hk2)]
      · rw [if_neg hk2, if_neg ?_]
        rintro (hmem2 | rfl)
        · exact hk2 hmem2
        · exact hk rfl

theorem processSnapshot_keys (snap : List (String × IceCandidate))
    (st : CandidateSubState) (k : String) :
    (k ∈ (processSnapshot st snap).processedKeys)
      ↔ (k ∈ st.processedKeys ∨ k ∈ snap.map Prod.fst) := by
  induction snap generalizing st
  case nil => simp [processSnapshot]
  case cons e es ih =>
    simp only [processSnapshot, List.foldl_cons] at *
    rw [ih (processEntry st e)]
    rw [processEntry_keys]
    simp only [List.map_cons, List.mem_cons]
    tauto

theorem processSnapshot_inv (snap : List (String × IceCandidate))
    (st : CandidateSubState) (h : DedupInv st) :
    DedupInv (processSnapshot st snap) := by
  induction snap generalizing st
  case nil => exact h
  case cons e es ih =>
    exact ih (processEntry st e) (processEntry_inv st e h)

theorem runCandidateFeed_keys (snaps : List (List (String × IceCandidate)))
    (k : String) :
    (k ∈ (runCandidateFeed snaps).processedKeys)
      ↔ k ∈ snaps.flatten.map Prod.fst := by
  suffices hgen : ∀ st : CandidateSubState,
      (k ∈ (snaps.foldl processSnapshot st).processedKeys)
        ↔ (k ∈ st.processedKeys ∨ k ∈ snaps.flatten.map Prod.fst) by
    have := hgen ⟨[], []⟩
    simpa [runCandidateFeed] using this
  induction snaps
  case nil => simp
  case cons s ss ih =>
    intro st
    simp only [List.foldl_cons, List.flatten_cons, List.map_append,
      List.mem_append]
    rw [ih (processSnapshot st s), processSnapshot_keys]
    tauto

theorem runCandidateFeed_inv (snaps : List (List (String × IceCandidate))) :
    DedupInv (runCandidateFeed snaps) := by
  unfold runCandidateFeed
  suffices hgen : ∀ st : CandidateSubState, DedupInv st →
      DedupInv (snaps.foldl processSnapshot st) by
    refine hgen ⟨[], []⟩ ?_
    intro k
    simp
  induction snaps
  case nil => exact fun st h => h
  case cons s ss ih =>
    intro st h
    exact ih (processSnapshot st s) (processSnapshot_inv s st h)

/-- C8: over any sequence of relay deliveries, each carrying the full
current set of candidate entries, the subscription fires its callback
exactly once per distinct entry key: a key delivered (and redelivered) any
number of times produces exactly one apply-call, and a key never delivered
produces none. -/
theorem candidate_dedup (snaps : List (List (String × IceCandidate)))
    (k : String) :
    ((runCandidateFeed snaps).applied.map Prod.fst).count k
      = if k ∈ snaps.flatten.map Prod.fst then 1 else 0 := by
  rw [runCandidateFeed_inv snaps k]
  by_cases hk : k ∈ snaps.flatten.map Prod.fst
  · rw [if_pos hk, if_pos ((runCandidateFeed_keys snaps k).mpr hk)]
  · rw [if_neg hk, if_neg (fun h => hk ((runCandidateFeed_keys snaps k).mp h))]

/-! Backpressure in the send loop (`webrtc.js` lines 265-282). -/

/-- Sender-side state during the chunk loop of `sendFile`: the index of the
next chunk to send (`i` of the `for` loop) and the transport's
`bufferedAmount` gauge. -/
structure SenderState where
  idx : Nat
  buffered : Nat
  deriving DecidableEq, Repr

/-- Events observable while the send loop runs.  `sendChunk` records the
chunk index and the gauge value at the moment of the `send` call. -/
inductive SendEvent where
  | drain (amount : Nat)
  | poll
  | sendChunk (i : Nat) (gaugeAtSend : Nat)
  deriving DecidableEq, Repr

/-- Small-step semantics of the chunk loop of `sendFile` interleaved with
the transport draining its queue.  `drain` models the transport
transmitting buffered bytes between sender steps (it only lowers the
gauge); `poll` is one iteration of the busy-wait
`while (this.dataChannel.bufferedAmount > CHUNK_SIZE * 4) await sleep(10)`,
enabled exactly while the guard holds; `sendChunk` is
`this.dataChannel.send(chunk)` for the next chunk, reachable only once the
guard is false, and it adds the chunk's size to the gauge. -/
inductive SendStep (data : List Nat) : SenderState → SendEvent → SenderState → Prop where
  | drain (st : SenderState) (a : Nat) (ha : a ≤ st.buffered) :
      SendStep data st (.drain a) ⟨st.idx, st.buffered - a⟩
  | poll (st : SenderState) (hg : CHUNK_SIZE * 4 < st.buffered) :
      SendStep data st .poll st
  | sendChunk (st : SenderState) (hg : st.buffered ≤ CHUNK_SIZE * 4)
      (hi : st.idx < numChunks data.length) :
      SendStep data st (.sendChunk st.idx st.buffered)
        ⟨st.idx + 1, st.buffered + (chunkAt data st.idx).length⟩

/-- Finite executions of the send loop. -/
inductive SendTrace (data : List Nat) : SenderState → List SendEvent → SenderState → Prop where
  | refl (st : SenderState) : SendTrace data st [] st
  | step {st st2 st3 : SenderState} {ev : SendEvent} {evs : List SendEvent} :
      SendStep data st ev st2 → SendTrace data st2 evs st3 →
      SendTrace data st (ev :: evs) st3

theorem SendStep_buffered_bound {data : List Nat} {st st2 : SenderState}
    {ev : SendEvent} (h : SendStep data st ev st2) :
    st2.buffered ≤ max st.buffered (CHUNK_SIZE * 4 + CHUNK_SIZE) := by
  cases h
  case drain a ha =>
    exact le_max_of_le_left (Nat.sub_le _ _)
  case poll hg =>
    exact le_max_left _ _
  case sendChunk hg hi =>
    apply le_max_of_le_right
    have hlen := chunkAt_length_le data st.idx
    show st.buffered + (chunkAt data st.idx).length ≤ CHUNK_SIZE * 4 + CHUNK_SIZE
    omega

/-- C7: in every execution of the send loop, every binary chunk send
happens at a moment when the outstanding-buffered-bytes gauge is at most
`4 * CHUNK_SIZE` (the busy-wait suspends the sender while the gauge is
above that threshold), and consequently the gauge never exceeds
`max(initial gauge, 5 * CHUNK_SIZE)` anywhere in the execution — a bound
independent of the payload size. -/
theorem backpressure_bound (data : List Nat) (st0 st1 : SenderState)
    (evs : List SendEvent) (htr : SendTrace data st0 evs st1) :
    (∀ i g, SendEvent.sendChunk i g ∈ evs → g ≤ CHUNK_SIZE * 4) ∧
    st1.buffered ≤ max st0.buffered (CHUNK_SIZE * 4 + CHUNK_SIZE) := by
  induction htr
  case refl st =>
    exact ⟨fun i g hmem => absurd hmem (List.not_mem_nil _), le_max_left _ _⟩
  case step st st2 st3 ev evs hstep htr ih =>
    obtain ⟨ihmem, ihbound⟩ := ih
    constructor
    · intro i g hmem
      rcases List.mem_cons.mp hmem with hhead | htail
      · cases hstep
        case drain a ha => exact absurd hhead (by simp)
        case poll hg => exact absurd hhead (by simp)
        case sendChunk hg hi =>
          rw [SendEvent.sendChunk.injEq] at hhead
          rw [hhead.2]
          exact hg
      · exact ihmem i g htail
    · have hb2 := SendStep_buffered_bound hstep
      exact le_trans ihbound (max_le hb2 (le_max_right _ _))

theorem backpressure_bound_witness :
    (∀ i g, SendEvent.sendChunk i g ∈ [SendEvent.sendChunk 0 0] →
      g ≤ CHUNK_SIZE * 4) ∧
    (SenderState.mk (0 + 1) (0 + (chunkAt [1, 2, 3] 0).length)).buffered
      ≤ max (SenderState.mk 0 0).buffered (CHUNK_SIZE * 4 + CHUNK_SIZE) := by
  refine backpressure_bound [1, 2, 3] ⟨0, 0⟩ _ [SendEvent.sendChunk 0 0] ?_
  refine SendTrace.step ?_ (SendTrace.refl _)
  exact SendStep.sendChunk ⟨0, 0⟩ (by norm_num)
    (by unfold numChunks CHUNK_SIZE; norm_num)

/-! Connection timeout behavior (`webrtc.js` lines 77-136, 209-218,
230-235). -/

/-- Connection-level client state relevant to the 30-second negotiation
timeout armed by `connect()`: whether the data channel reported open
(`isConnected`), whether the one-shot timer is still live
(`connectionTimeout`; cleared by `clearConnectionTimeout` and spent by
firing), the recorded `onError` invocations (by message), and the counts
of `onDisconnected`/`onConnected` invocations. -/
structure ClientState where
  isConnected : Bool
  connectionTimeout : Bool
  errors : List String
  disconnectedCalls : Nat
  connectedCalls : Nat
  deriving DecidableEq, Repr

/-- The `setTimeout` handler armed at the end of `connect()` (lines
209-218): its body checks `!this.isConnected` and then only logs the
timeout (plus an `alert` on iOS Safari).  It invokes no `onError`, changes
no connection state, and performs no retry and no close; the one-shot
timer is spent by firing. -/
def connectionTimeoutHandler (st : ClientState) : ClientState :=
  { st with connectionTimeout := false }

/-- The `dataChannel.onopen` handler (lines 77-82): clears the timeout,
sets `isConnected`, invokes `onConnected`. -/
def onChannelOpen (st : ClientState) : ClientState :=
  { st with isConnected := true, connectionTimeout := false,
            connectedCalls := st.connectedCalls + 1 }

/-- The `dataChannel.onclose` handler (lines 84-88): clears `isConnected`,
invokes `onDisconnected`; it does not touch the timeout. -/
def onChannelClose (st : ClientState) : ClientState :=
  { st with isConnected := false,
            disconnectedCalls := st.disconnectedCalls + 1 }

/-- The `connectionState === 'failed'` branch of
`onconnectionstatechange` (lines 126-130): clears the timeout, clears
`isConnected`, invokes `onError(new Error('Connection failed'))`. -/
def onConnFailed (st : ClientState) : ClientState :=
  { st with isConnected := false, connectionTimeout := false,
            errors := st.errors ++ ["Connection failed"] }

/-- The `'disconnected' | 'closed'` branch of `onconnectionstatechange`
(lines 131-135): clears `isConnected`, invokes `onDisconnected`. -/
def onConnDisconnected (st : ClientState) : ClientState :=
  { st with isConnected := false,
            disconnectedCalls := st.disconnectedCalls + 1 }

inductive ClientEvent where
  | channelOpen
  | channelClose
  | connFailed
  | connDisconnected
  | timeoutFire
  deriving DecidableEq, Repr

/-- Asynchronous events one `connect()` attempt can observe, each applying
the corresponding handler; `timeoutFire` is enabled only while the armed
one-shot timer is live. -/
inductive ClientStep : ClientState → ClientEvent → ClientState → Prop where
  | channelOpen (st : ClientState) :
      ClientStep st .channelOpen (onChannelOpen st)
  | channelClose (st : ClientState) :
      ClientStep st .channelClose (onChannelClose st)
  | connFailed (st : ClientState) :
      ClientStep st .connFailed (onConnFailed st)
  | connDisconnected (st : ClientState) :
      ClientStep st .connDisconnected (onConnDisconnected st)
  | timeoutFire (st : ClientState) (h : st.connectionTimeout = true) :
      ClientStep st .timeoutFire (connectionTimeoutHandler st)

/-- Finite executions of one connection attempt. -/
inductive ClientTrace : ClientState → List ClientEvent → ClientState → Prop where
  | refl (st : ClientState) : ClientTrace st [] st
  | step {st st2 st3 : ClientState} {ev : ClientEvent} {evs : List ClientEvent} :
      ClientStep st ev st2 → ClientTrace st2 evs st3 →
      ClientTrace st (ev :: evs) st3

/-- C9 counterexample: starting from the state right after `connect()`
armed the timer and the channel never opened (not connected, timer live,
no errors), the timeout fires — and the resulting state still records no
error at all and is not in any failed state: the handler only spends the
timer.  No `NegotiationTimeoutError` exists anywhere in the code. -/
theorem timeout_fires_silently :
    ClientStep ⟨false, true, [], 0, 0⟩ ClientEvent.timeoutFire
      ⟨false, false, [], 0, 0⟩ ∧
    connectionTimeoutHandler ⟨false, true, [], 0, 0⟩ =
      ⟨false, false, [], 0, 0⟩ ∧
    (connectionTimeoutHandler ⟨false, true, [], 0, 0⟩).errors = [] ∧
    (connectionTimeoutHandler ⟨false, true, [], 0, 0⟩).isConnected = false :=
  ⟨ClientStep.timeoutFire ⟨false, true, [], 0, 0⟩ rfl, rfl, rfl, rfl⟩

theorem ClientStep_timeout_le {st st2 : ClientState} {ev : ClientEvent}
    (h : ClientStep st ev st2) :
    (if st2.connectionTimeout then 1 else 0)
      ≤ (if st.connectionTimeout then 1 else 0) := by
  cases h <;>
    simp [onChannelOpen, onChannelClose, onConnFailed, onConnDisconnected,
      connectionTimeoutHandler]

/-- C9 (amended): the timeout handler fires at most once per `connect()`
attempt — the timer is one-shot and no handler re-arms it — and firing
changes nothing observable: it raises no error, leaves `isConnected` (and
every callback count) unchanged, and performs no retry and no close.  In
particular the state never becomes `failed` through the timeout path. -/
theorem negotiation_timeout_behavior (st0 st1 : ClientState)
    (evs : List ClientEvent) (htr : ClientTrace st0 evs st1) :
    evs.count ClientEvent.timeoutFire
        + (if st1.connectionTimeout then 1 else 0)
      ≤ (if st0.connectionTimeout then 1 else 0) ∧
    (∀ st st2 : ClientState, ClientStep st ClientEvent.timeoutFire st2 →
      st2.errors = st.errors ∧ st2.isConnected = st.isConnected ∧
      st2.disconnectedCalls = st.disconnectedCalls ∧
      st2.connectedCalls = st.connectedCalls) := by
  constructor
  · induction htr
    case refl st =>
      simp
    case step st st2 st3 ev evs hstep htr ih =>
      have hle := ClientStep_timeout_le hstep
      by_cases hev : ev = ClientEvent.timeoutFire
      · subst hev
        cases hstep with
        | timeoutFire harmed =>
          have hb : (if (connectionTimeoutHandler st).connectionTimeout = true
              then (1 : Nat) else 0) = 0 := rfl
          have ha : (if st.connectionTimeout = true then (1 : Nat) else 0) = 1 := by
            rw [harmed]
            rfl
          rw [List.count_cons_self, ha]
          rw [hb] at ih
          omega
      · rw [List.count_cons_of_ne (Ne.symm hev)]
        omega
  · intro st st2 hstep
    cases hstep
    case timeoutFire harmed =>
      exact ⟨rfl, rfl, rfl, rfl⟩

theorem negotiation_timeout_behavior_witness :
    [ClientEvent.timeoutFire].count ClientEvent.timeoutFire
        + (if (ClientState.mk false false [] 0 0).connectionTimeout then 1 else 0)
      ≤ (if (ClientState.mk false true [] 0 0).connectionTimeout then 1 else 0) ∧
    (∀ st st2 : ClientState, ClientStep st ClientEvent.timeoutFire st2 →
      st2.errors = st.errors ∧ st2.isConnected = st.isConnected ∧
      st2.disconnectedCalls = st.disconnectedCalls ∧
      st2.connectedCalls = st.connectedCalls) := by
  refine negotiation_timeout_behavior ⟨false, true, [], 0, 0⟩
    ⟨false, false, [], 0, 0⟩ [ClientEvent.timeoutFire] ?_
  exact ClientTrace.step (ClientStep.timeoutFire ⟨false, true, [], 0, 0⟩ rfl)
    (ClientTrace.refl _)
